import Mathlib

/-!
Verification of tools/codesigningtool/codesigningtool.py.

The Python tool resolves a code-signing identity from a mobileprovision
file and execs the real codesign binary with it.  This file gives a
shallow embedding of the tool: Python strings are `List Char`, every
external subprocess is an outcome supplied by a `HostEnv`, and the
functions of the script are translated one by one.  Alongside the
result, the embedded functions also report the list of external
processes they spawn (`ExtCall`), so that statements such as "the
provisioning profile is never decoded" are expressible.
-/

/-- Python strings (and the bytes handled by the tool) as character lists. -/
abbrev Str := List Char

/-- Raw DER certificate bytes embedded in a provisioning profile. -/
abbrev Blob := List Char

/-! ### Python string primitives used by the script -/

/-- The ASCII whitespace characters stripped by Python `str.strip()`. -/
def pyIsSpace (c : Char) : Bool :=
  decide (c = ' ' ∨ c = '\t' ∨ c = '\n' ∨ c = '\r' ∨ c = '\x0b' ∨ c = '\x0c')

/-- Python `s.strip()`: drop whitespace from both ends. -/
def pyStrip (s : Str) : Str :=
  ((s.dropWhile pyIsSpace).reverse.dropWhile pyIsSpace).reverse

/-- Worker for `pyReplace`, structurally recursive on a fuel bound so that
concrete instances evaluate inside the kernel.  At each position, if `old`
is a (non-empty) pattern starting here, it is consumed and `new` emitted;
otherwise one character is kept.  This is Python `str.replace`'s
left-to-right, non-overlapping scan. -/
def pyReplaceFuel (old new : List Char) : Nat → List Char → List Char
  | 0, s => s
  | _ + 1, [] => []
  | fuel + 1, c :: rest =>
    if old ≠ [] ∧ old <+: (c :: rest) then
      new ++ pyReplaceFuel old new fuel ((c :: rest).drop old.length)
    else
      c :: pyReplaceFuel old new fuel rest

/-- Python `s.replace(old, new)` for a non-empty `old` (the script only
replaces the fingerprint label and the colon separator, both non-empty). -/
def pyReplace (old new s : List Char) : List Char :=
  pyReplaceFuel old new s.length s

/-- The line-break characters recognised by Python `str.splitlines()`. -/
def isLineBreakChar (c : Char) : Bool :=
  decide (c = '\n' ∨ c = '\r' ∨ c = '\x0b' ∨ c = '\x0c' ∨ c = '\x1c' ∨
    c = '\x1d' ∨ c = '\x1e' ∨ c = '\x85' ∨ c = '\u2028' ∨ c = '\u2029')

/-- Worker for `pySplitlines`; `acc` holds the current line reversed. -/
def pySplitlinesAux : List Char → List Char → List (List Char)
  | acc, [] => if acc = [] then [] else [acc.reverse]
  | acc, '\r' :: '\n' :: rest => acc.reverse :: pySplitlinesAux [] rest
  | acc, c :: rest =>
    if isLineBreakChar c then acc.reverse :: pySplitlinesAux [] rest
    else pySplitlinesAux (c :: acc) rest

/-- Python `s.splitlines()`: split at line breaks (treating `\r\n` as one
break), with no trailing empty line. -/
def pySplitlines (s : Str) : List Str :=
  pySplitlinesAux [] s

/-- The character class `[A-F0-9]` of the fingerprint regex. -/
def isUpperHex (c : Char) : Bool :=
  decide (('A' ≤ c ∧ c ≤ 'F') ∨ ('0' ≤ c ∧ c ≤ '9'))

/-- The search `re.search(r"([A-F0-9]{40})", line)`: try each start position left to
right; a position matches when the next 40 characters all lie in the
class, and the match is exactly that 40-character window. -/
def searchHex40 : List Char → Option Str
  | [] => none
  | c :: rest =>
    if ((c :: rest).take 40).length = 40 ∧
        ((c :: rest).take 40).all isUpperHex = true then
      some ((c :: rest).take 40)
    else
      searchHex40 rest

deriving instance DecidableEq for Except

/-! ### Subprocess model -/

/-- What happened when the tool tried to spawn one external process:
either the spawn itself failed (e.g. the binary is absent, raising
`OSError`), or the process ran to completion with some standard output
and exit status. -/
inductive ProcOutcome where
  | spawnFailure
  | ran (stdout : Str) (exitCode : Int)
deriving DecidableEq

/-- The Python exceptions the script can propagate. -/
inductive PyError where
  | oSError
  | calledProcessError
  | valueError
deriving DecidableEq

/-- The script's own helper `_check_output`: `Popen(...).communicate()`
returns the captured stdout and the script never inspects the exit
status, so a run that completed with a non-zero status still yields its
stdout.  Only a failed spawn raises. -/
def _check_output : ProcOutcome → Except PyError Str
  | .spawnFailure => .error .oSError
  | .ran stdout _ => .ok stdout

/-- The standard-library `subprocess.check_output`, used only for
`security cms`: unlike `_check_output` it raises `CalledProcessError`
on a non-zero exit status. -/
def subprocessCheckOutput : ProcOutcome → Except PyError Str
  | .spawnFailure => .error .oSError
  | .ran stdout exitCode =>
    if exitCode = 0 then .ok stdout else .error .calledProcessError

/-! ### The tool's data and environment -/

/-- The decoded plist of a mobileprovision file, reduced to the one field
the script reads: the `DeveloperCertificates` list of raw blobs. -/
structure MobileProvision where
  developerCertificates : List Blob
deriving DecidableEq

/-- One external process spawned by the script. -/
inductive ExtCall where
  | cmsDecode (path : Option Str)
  | opensslFingerprint (blob : Blob)
  | findIdentities
deriving DecidableEq

/-- The host environment: the outcome of each external process the script
may spawn, plus the plist decoder.  `cms path` is
`security cms -D -i path`; `openssl blob` is
`openssl x509 -inform DER -noout -fingerprint` fed `blob` on stdin;
`findIdentity` is `security find-identity -v -p codesigning`;
`plistOf xml` is `plistlib` decoding the CMS output (which may raise on
malformed plists). -/
structure HostEnv where
  cms : Option Str → ProcOutcome
  plistOf : Str → Except PyError MobileProvision
  openssl : Blob → ProcOutcome
  findIdentity : ProcOutcome

/-! ### The script's functions -/

/-- Translation of `_parse_mobileprovision_file`: run `security cms -D -i path` through
`subprocess.check_output` and decode the resulting plist. -/
def _parse_mobileprovision_file (env : HostEnv) (path : Option Str) :
    Except PyError MobileProvision :=
  match subprocessCheckOutput (env.cms path) with
  | .error e => .error e
  | .ok plistXml => env.plistOf plistXml

/-- The label prefix stripped from the openssl fingerprint line. -/
def sha1Label : Str := "SHA1 Fingerprint=".data

/-- The pure normalisation inside `_certificate_fingerprint`:
`.strip()` the raw output, drop the `SHA1 Fingerprint=` label, drop
every colon separator (utf-8 decoding is the identity here since stdout
is already modelled as characters). -/
def normalizeFingerprint (raw : Str) : Str :=
  pyReplace [':'] [] (pyReplace sha1Label [] (pyStrip raw))

/-- Translation of `_certificate_fingerprint`: pipe the identity blob to openssl via
`_check_output` and normalise the printed fingerprint line. -/
def _certificate_fingerprint (env : HostEnv) (identity : Blob) :
    Except PyError Str :=
  match _check_output (env.openssl identity) with
  | .error e => .error e
  | .ok raw => .ok (normalizeFingerprint raw)

/-- The `for line in output.splitlines(): m = re.search(...)` loop of
`_find_codesign_identities`, appending `m.group(0)` whenever a line
matches. -/
def collectIds : List Str → List Str
  | [] => []
  | line :: rest =>
    match searchHex40 line with
    | some m => m :: collectIds rest
    | none => collectIds rest

/-- Translation of `_find_codesign_identities`: list the host's code-signing identities
by scanning the stripped output of `security find-identity`. -/
def _find_codesign_identities (env : HostEnv) : Except PyError (List Str) :=
  match _check_output env.findIdentity with
  | .error e => .error e
  | .ok out => .ok (collectIds (pySplitlines (pyStrip out)))

/-- The resolver loop of `_find_codesign_identity`, consuming the lazy
generator `_get_identities_from_provisioning_profile`: fingerprint each
embedded certificate in profile order (one openssl spawn per item,
recorded in the trace) and return the first fingerprint that is a member
of the host identity set.  Membership in the Python `set` is string
membership, so it is modelled as list membership.  The loop stops at the
first match, so certificates after it are never fingerprinted. -/
def resolveLoop (env : HostEnv) (idsCodesign : List Str) :
    List Blob → List ExtCall × Except PyError (Option Str)
  | [] => ([], .ok none)
  | b :: rest =>
    match _certificate_fingerprint env b with
    | .error e => ([.opensslFingerprint b], .error e)
    | .ok idMpf =>
      if idMpf ∈ idsCodesign then
        ([.opensslFingerprint b], .ok (some idMpf))
      else
        (.opensslFingerprint b :: (resolveLoop env idsCodesign rest).1,
          (resolveLoop env idsCodesign rest).2)

/-- Translation of `_find_codesign_identity`: decode the profile, snapshot the host
identities as a set, and scan the embedded certificates in order.
Falling off the loop returns Python `None`, i.e. `none`. -/
def _find_codesign_identity (env : HostEnv) (mobileprovision : Option Str) :
    List ExtCall × Except PyError (Option Str) :=
  match _parse_mobileprovision_file env mobileprovision with
  | .error e => ([.cmsDecode mobileprovision], .error e)
  | .ok mpf =>
    match _find_codesign_identities env with
    | .error e => ([.cmsDecode mobileprovision, .findIdentities], .error e)
    | .ok ids =>
      (.cmsDecode mobileprovision :: .findIdentities ::
          (resolveLoop env ids mpf.developerCertificates).1,
        (resolveLoop env ids mpf.developerCertificates).2)

/-! ### The entry point -/

/-- The options recognised by the argument parser.  `--mobileprovision`
and `--identity` default to Python `None` when absent; the claims under
verification always pass `--codesign`, so it is taken as given. -/
structure Args where
  mobileprovision : Option Str
  codesign : Str
  identity : Option Str

/-- How `main` ends when no exception propagates: `return 1` after
printing a diagnostic, or `os.execve` replacing the process with the
signing binary (argv head is the binary path itself). -/
inductive MainResult where
  | failed (message : Str) (exitCode : Int)
  | execed (argv : List Str)
deriving DecidableEq

/-- The flag `"-v"` passed to the signing binary. -/
def vFlag : Str := "-v".data

/-- The flag `"--sign"` passed to the signing binary. -/
def signFlag : Str := "--sign".data

/-- Python `"%s" % x` for the optional profile path (`None` renders as
the four characters `None`). -/
def pyFormatOptStr : Option Str → Str
  | none => "None".data
  | some s => s

/-- The diagnostic printed when no identity is found, with the profile
path interpolated. -/
def unableMsg (mobileprovision : Option Str) : Str :=
  "Unable to find identity on the system matching the ones in ".data ++
    pyFormatOptStr mobileprovision

namespace Codesigningtool

/-- Translation of `main` after argument parsing: `codesign_args` are the unrecognised
arguments collected by `parse_known_args`, in their original order.  If
`--identity` was supplied, it is used as-is (the `identity == None`
check is false for every string, the empty string included, so no
resolution happens and no external process is spawned).  Otherwise the
resolver runs; `None` from it triggers the printed diagnostic and
`return 1`, and a found identity leads to
`os.execve(codesign, [codesign, "-v", "--sign", identity] + codesign_args, environ)`. -/
def main (args : Args) (codesign_args : List Str) (env : HostEnv) :
    List ExtCall × Except PyError MainResult :=
  match args.identity with
  | some identity =>
    ([], .ok (.execed (args.codesign :: vFlag :: signFlag :: identity ::
      codesign_args)))
  | none =>
    match _find_codesign_identity env args.mobileprovision with
    | (tr, .error e) => (tr, .error e)
    | (tr, .ok none) =>
      (tr, .ok (.failed (unableMsg args.mobileprovision) 1))
    | (tr, .ok (some identity)) =>
      (tr, .ok (.execed (args.codesign :: vFlag :: signFlag :: identity ::
        codesign_args)))

end Codesigningtool

/-! ### Derived views of the environment, used to state the claims -/

/-- The stdout of an outcome that ran (spawn failures contribute `[]`;
the statements using this always assume the process ran). -/
def ranStdout : ProcOutcome → Str
  | .spawnFailure => []
  | .ran stdout _ => stdout

/-- The fingerprints the host's identity store reports, in the order the
listing utility printed them. -/
def hostIdentityList (env : HostEnv) : List Str :=
  collectIds (pySplitlines (pyStrip (ranStdout env.findIdentity)))

/-- The fingerprint of each certificate embedded in the profile, in
profile order, as the script would compute them. -/
def profileFingerprints (env : HostEnv) (mpf : MobileProvision) : List Str :=
  mpf.developerCertificates.map
    (fun b => normalizeFingerprint (ranStdout (env.openssl b)))

/-- A well-behaved invocation: `security cms` decodes the profile at
`path` to `mpf`, `security find-identity` ran, and openssl ran on every
embedded certificate (no spawn failures). -/
structure GoodEnv (env : HostEnv) (path : Option Str)
    (mpf : MobileProvision) : Prop where
  cms_ok : ∃ plistXml, env.cms path = .ran plistXml 0 ∧
    env.plistOf plistXml = .ok mpf
  find_ran : ∃ out code, env.findIdentity = .ran out code
  openssl_ran : ∀ b ∈ mpf.developerCertificates,
    ∃ out code, env.openssl b = .ran out code

/-- A 40-character all-hex window of `cs` starts at position `i`
(the positions at which the fingerprint regex can match). -/
def HexWindowAt (cs : List Char) (i : Nat) : Prop :=
  ((cs.drop i).take 40).length = 40 ∧
    ∀ c ∈ (cs.drop i).take 40, isUpperHex c = true

instance (cs : List Char) (i : Nat) : Decidable (HexWindowAt cs i) :=
  inferInstanceAs (Decidable (((cs.drop i).take 40).length = 40 ∧
    ∀ c ∈ (cs.drop i).take 40, isUpperHex c = true))

/-! ### Claim-side constructions (from the spec's wording, for C6) -/

/-- The colon-separated byte pairs of an openssl fingerprint line body,
`AA:BB:...:FF`, built from the pair list. -/
def colonJoin : List (Char × Char) → Str
  | [] => []
  | [p] => [p.1, p.2]
  | p :: q :: rest => p.1 :: p.2 :: ':' :: colonJoin (q :: rest)

/-- The same pairs with the separators removed, `AABB...FF`. -/
def flatPairs : List (Char × Char) → Str
  | [] => []
  | p :: rest => p.1 :: p.2 :: flatPairs rest

/-! ### Helper lemmas: Python string primitives -/

/-- The fuel bound of `pyReplaceFuel` is irrelevant once it covers the
input length. -/
lemma pyReplaceFuel_irrel (old new : List Char) :
    ∀ (n f₁ f₂ : Nat) (s : List Char), s.length ≤ n → s.length ≤ f₁ →
      s.length ≤ f₂ →
      pyReplaceFuel old new f₁ s = pyReplaceFuel old new f₂ s := by
  intro n
  induction n with
  | zero =>
    intro f₁ f₂ s hs h₁ h₂
    have hnil : s = [] := List.length_eq_zero.mp (Nat.le_zero.mp hs)
    subst hnil
    cases f₁ <;> cases f₂ <;> simp [pyReplaceFuel]
  | succ n ih =>
    intro f₁ f₂ s hs h₁ h₂
    match s with
    | [] => cases f₁ <;> cases f₂ <;> simp [pyReplaceFuel]
    | c :: rest =>
      cases f₁ with
      | zero => simp at h₁
      | succ g₁ =>
        cases f₂ with
        | zero => simp at h₂
        | succ g₂ =>
          have hs' : rest.length ≤ n := by simp at hs; omega
          have h₁' : rest.length ≤ g₁ := by simp at h₁; omega
          have h₂' : rest.length ≤ g₂ := by simp at h₂; omega
          by_cases h : old ≠ [] ∧ old <+: (c :: rest)
          · simp only [pyReplaceFuel, if_pos h]
            congr 1
            have hone : 1 ≤ old.length := by
              cases old with
              | nil => exact absurd rfl h.1
              | cons _ _ => simp
            have hd : ((c :: rest).drop old.length).length ≤ rest.length := by
              simp only [List.length_drop, List.length_cons]
              omega
            exact ih g₁ g₂ _ (le_trans hd hs') (le_trans hd h₁')
              (le_trans hd h₂')
          · simp only [pyReplaceFuel, if_neg h]
            congr 1
            exact ih g₁ g₂ rest hs' h₁' h₂'

lemma pyReplace_nil (old new : List Char) : pyReplace old new [] = [] := rfl

/-- Unfolding `pyReplace` at a position where the pattern matches. -/
lemma pyReplace_matched (old new s : List Char) (h : old ≠ [])
    (hp : old <+: s) :
    pyReplace old new s = new ++ pyReplace old new (s.drop old.length) := by
  cases s with
  | nil =>
    obtain ⟨t, ht⟩ := hp
    cases old with
    | nil => exact absurd rfl h
    | cons _ _ => simp at ht
  | cons c rest =>
    show pyReplaceFuel old new ((c :: rest).length) (c :: rest) = _
    simp only [List.length_cons, pyReplaceFuel, if_pos (And.intro h hp)]
    congr 1
    have hone : 1 ≤ old.length := by
      cases old with
      | nil => exact absurd rfl h
      | cons _ _ => simp
    have hd : ((c :: rest).drop old.length).length ≤ rest.length := by
      simp only [List.length_drop, List.length_cons]
      omega
    exact pyReplaceFuel_irrel old new rest.length rest.length _ _ hd hd
      (le_refl _)

/-- Unfolding `pyReplace` at a position where the pattern does not match. -/
lemma pyReplace_cons_nomatch (old new : List Char) (c : Char)
    (rest : List Char) (h : ¬(old ≠ [] ∧ old <+: (c :: rest))) :
    pyReplace old new (c :: rest) = c :: pyReplace old new rest := by
  show pyReplaceFuel old new ((c :: rest).length) (c :: rest) = _
  simp only [List.length_cons, pyReplaceFuel, if_neg h]
  rfl

/-- If some character of the pattern never occurs in the string, the
replacement is the identity. -/
lemma pyReplace_of_not_mem (old new s : List Char) (c : Char)
    (hc : c ∈ old) (hs : c ∉ s) : pyReplace old new s = s := by
  induction s with
  | nil => exact pyReplace_nil old new
  | cons x rest ih =>
    have hnop : ¬(old ≠ [] ∧ old <+: (x :: rest)) := by
      rintro ⟨-, hp⟩
      exact hs (hp.subset hc)
    rw [pyReplace_cons_nomatch old new x rest hnop,
      ih (fun hm => hs (List.mem_cons_of_mem x hm))]

/-- Replacing a single character by the empty string is a filter. -/
lemma pyReplace_single_eq_filter (c : Char) (s : List Char) :
    pyReplace [c] [] s = s.filter (fun x => decide (x ≠ c)) := by
  induction s with
  | nil => rfl
  | cons x rest ih =>
    by_cases hx : x = c
    · subst hx
      rw [pyReplace_matched [x] [] (x :: rest) (by simp) ⟨rest, rfl⟩]
      simp only [List.length_cons, List.length_nil, List.drop_succ_cons,
        List.drop_zero, List.nil_append, List.filter_cons]
      simp [ih]
    · have hnop : ¬([c] ≠ [] ∧ [c] <+: (x :: rest)) := by
        rintro ⟨-, ⟨t, ht⟩⟩
        exact hx (List.cons.injEq .. ▸ ht).1.symm
      rw [pyReplace_cons_nomatch [c] [] x rest hnop]
      simp only [List.filter_cons]
      simp [hx, ih]

/-- Python strip is the identity when both ends are not whitespace. -/
lemma pyStrip_eq_self (s : List Char)
    (h1 : ∀ c, s.head? = some c → pyIsSpace c = false)
    (h2 : ∀ c, s.getLast? = some c → pyIsSpace c = false) :
    pyStrip s = s := by
  have d1 : s.dropWhile pyIsSpace = s := by
    cases s with
    | nil => rfl
    | cons x rest =>
      rw [List.dropWhile_cons]
      simp [h1 x rfl]
  show ((s.dropWhile pyIsSpace).reverse.dropWhile pyIsSpace).reverse = s
  rw [d1]
  have d2 : s.reverse.dropWhile pyIsSpace = s.reverse := by
    cases hr : s.reverse with
    | nil => rfl
    | cons x rest =>
      have hlast : s.getLast? = some x := by
        rw [← List.head?_reverse, hr]
        rfl
      rw [List.dropWhile_cons]
      simp [h2 x hlast]
  rw [d2, List.reverse_reverse]

/-- Python strip is the identity when no character is whitespace. -/
lemma pyStrip_eq_self_of_forall (s : List Char)
    (h : ∀ c ∈ s, pyIsSpace c = false) : pyStrip s = s := by
  refine pyStrip_eq_self s (fun c hc => h c ?_) (fun c hc => h c ?_)
  · exact List.mem_of_mem_head? hc
  · obtain ⟨hne, heq⟩ := List.mem_getLast?_eq_getLast (Option.mem_def.mpr hc)
    rw [heq]
    exact List.getLast_mem hne

/-! ### Helper lemmas: the fingerprint line scan -/

/-- Any match returned by the scan is 40 characters of the regex's class. -/
lemma searchHex40_some_prop (cs s : List Char)
    (h : searchHex40 cs = some s) :
    s.length = 40 ∧ ∀ c ∈ s, isUpperHex c = true := by
  induction cs with
  | nil => simp [searchHex40] at h
  | cons c rest ih =>
    rw [searchHex40] at h
    by_cases hc : ((c :: rest).take 40).length = 40 ∧
        ((c :: rest).take 40).all isUpperHex = true
    · rw [if_pos hc] at h
      injection h with h2
      subst h2
      exact ⟨hc.1, fun x hx => List.all_eq_true.mp hc.2 x hx⟩
    · rw [if_neg hc] at h
      exact ih h

/-- The head-position condition of the scan is exactly a window at 0. -/
lemma hexWindowAt_zero_iff (c : Char) (rest : List Char) :
    HexWindowAt (c :: rest) 0 ↔
      ((c :: rest).take 40).length = 40 ∧
        ((c :: rest).take 40).all isUpperHex = true := by
  constructor
  · intro hw
    exact ⟨hw.1, List.all_eq_true.mpr hw.2⟩
  · intro hc
    exact ⟨hc.1, fun x hx => List.all_eq_true.mp hc.2 x hx⟩

/-- If no position carries a 40-character hex window, the scan fails. -/
lemma searchHex40_eq_none (cs : List Char) (h : ∀ i, ¬ HexWindowAt cs i) :
    searchHex40 cs = none := by
  induction cs with
  | nil => rfl
  | cons c rest ih =>
    rw [searchHex40, if_neg]
    · exact ih (fun i hi => h (i + 1) hi)
    · intro hc
      exact h 0 ((hexWindowAt_zero_iff c rest).mpr hc)

/-- The scan returns the window at the least matching position. -/
lemma searchHex40_eq_some_of_least (cs : List Char) (i : Nat)
    (hw : HexWindowAt cs i) (hleast : ∀ j < i, ¬ HexWindowAt cs j) :
    searchHex40 cs = some ((cs.drop i).take 40) := by
  induction cs generalizing i with
  | nil =>
    exact absurd hw.1 (by simp)
  | cons c rest ih =>
    cases i with
    | zero =>
      rw [searchHex40, if_pos ((hexWindowAt_zero_iff c rest).mp hw)]
      rfl
    | succ j =>
      rw [searchHex40, if_neg]
      · exact ih j hw (fun k hk => hleast (k + 1) (by omega))
      · intro hc
        exact hleast 0 (Nat.succ_pos j) ((hexWindowAt_zero_iff c rest).mpr hc)

/-- Everything collected by the line loop comes from a matching line. -/
lemma mem_collectIds (lines : List Str) (s : Str)
    (h : s ∈ collectIds lines) :
    ∃ line ∈ lines, searchHex40 line = some s := by
  induction lines with
  | nil => simp [collectIds] at h
  | cons l rest ih =>
    cases hm : searchHex40 l with
    | some m =>
      rw [collectIds, hm] at h
      rcases List.mem_cons.mp h with rfl | h2
      · exact ⟨l, List.mem_cons_self l rest, hm⟩
      · obtain ⟨line, hl, hs⟩ := ih h2
        exact ⟨line, List.mem_cons_of_mem l hl, hs⟩
    | none =>
      rw [collectIds, hm] at h
      obtain ⟨line, hl, hs⟩ := ih h
      exact ⟨line, List.mem_cons_of_mem l hl, hs⟩

/-! ### Helper lemmas: first-match searches -/

/-- The search `find?` only looks at the predicate's values on the list. -/
lemma find?_ext {α : Type} (p q : α → Bool) (l : List α)
    (h : ∀ a ∈ l, p a = q a) : l.find? p = l.find? q := by
  induction l with
  | nil => rfl
  | cons a rest ih =>
    by_cases hq : q a = true
    · rw [List.find?_cons_of_pos rest (by rw [h a (List.mem_cons_self a rest)]; exact hq),
        List.find?_cons_of_pos rest hq]
    · rw [List.find?_cons_of_neg rest (by rw [h a (List.mem_cons_self a rest)]; exact hq),
        List.find?_cons_of_neg rest hq]
      exact ih (fun x hx => h x (List.mem_cons_of_mem a hx))

/-- A successful `find?` is the element at the least index satisfying the
predicate. -/
lemma find?_first_index {α : Type} (p : α → Bool) (l : List α) (a : α)
    (h : l.find? p = some a) :
    ∃ i, ∃ hi : i < l.length, l.get ⟨i, hi⟩ = a ∧ p a = true ∧
      ∀ j, ∀ hj : j < i, p (l.get ⟨j, by omega⟩) = false := by
  induction l with
  | nil => simp at h
  | cons x rest ih =>
    by_cases px : p x = true
    · rw [List.find?_cons_of_pos rest px] at h
      injection h with h2
      subst h2
      exact ⟨0, by simp, rfl, px, fun j hj => absurd hj (by omega)⟩
    · rw [List.find?_cons_of_neg rest px] at h
      obtain ⟨i, hi, hget, hp, hmin⟩ := ih h
      refine ⟨i + 1, by simpa using Nat.succ_lt_succ hi, hget, hp, ?_⟩
      intro j hj
      cases j with
      | zero => simpa using px
      | succ k => exact hmin k (by omega)

/-- If some element satisfies the predicate, `find?` succeeds. -/
lemma find?_isSome_of_exists {α : Type} (p : α → Bool) (l : List α)
    (h : ∃ a ∈ l, p a = true) : ∃ a, l.find? p = some a := by
  obtain ⟨a, ha, hp⟩ := h
  induction l with
  | nil => simp at ha
  | cons x rest ih =>
    by_cases px : p x = true
    · exact ⟨x, List.find?_cons_of_pos rest px⟩
    · rcases List.mem_cons.mp ha with rfl | ha2
      · exact absurd hp px
      · obtain ⟨b, hb⟩ := ih ha2
        exact ⟨b, by rw [List.find?_cons_of_neg rest px]; exact hb⟩

/-! ### Helper lemmas: the resolver -/

/-- When openssl ran on every certificate, the loop computes the first
profile-order fingerprint that is in the host set, and never raises. -/
lemma resolveLoop_result (env : HostEnv) (ids : List Str) (bs : List Blob)
    (h : ∀ b ∈ bs, ∃ out code, env.openssl b = .ran out code) :
    (resolveLoop env ids bs).2 =
      .ok ((bs.map (fun b => normalizeFingerprint (ranStdout (env.openssl b)))).find?
        (fun f => decide (f ∈ ids))) := by
  induction bs with
  | nil => rfl
  | cons b rest ih =>
    obtain ⟨out, code, hb⟩ := h b (List.mem_cons_self b rest)
    have hfp : _certificate_fingerprint env b =
        .ok (normalizeFingerprint (ranStdout (env.openssl b))) := by
      rw [_certificate_fingerprint, hb]
      rfl
    by_cases hmem : normalizeFingerprint (ranStdout (env.openssl b)) ∈ ids
    · simp only [resolveLoop, hfp, if_pos hmem, List.map_cons]
      rw [List.find?_cons]
      simp [hmem]
    · simp only [resolveLoop, hfp, if_neg hmem, List.map_cons]
      rw [List.find?_cons]
      simp only [hmem, decide_False]
      exact ih (fun x hx => h x (List.mem_cons_of_mem b hx))

/-- On a well-behaved invocation the resolver returns exactly the first
profile-order fingerprint present in the host identity set (`find?` over
the profile's fingerprint list). -/
lemma resolver_eq_find (env : HostEnv) (path : Option Str)
    (mpf : MobileProvision) (hg : GoodEnv env path mpf) :
    (_find_codesign_identity env path).2 =
      .ok ((profileFingerprints env mpf).find?
        (fun f => decide (f ∈ hostIdentityList env))) := by
  obtain ⟨plistXml, hcms, hplist⟩ := hg.cms_ok
  obtain ⟨out, code, hfind⟩ := hg.find_ran
  have hparse : _parse_mobileprovision_file env path = .ok mpf := by
    rw [_parse_mobileprovision_file, hcms]
    simpa [subprocessCheckOutput] using hplist
  have hids : _find_codesign_identities env = .ok (hostIdentityList env) := by
    rw [_find_codesign_identities, hfind]
    simp [_check_output, hostIdentityList, ranStdout, hfind]
  simp only [_find_codesign_identity, hparse, hids]
  rw [profileFingerprints]
  exact resolveLoop_result env (hostIdentityList env)
    mpf.developerCertificates hg.openssl_ran

/-! ### Helper lemmas: character classes and fingerprint shapes -/

lemma isUpperHex_not_space (c : Char) (h : isUpperHex c = true) :
    pyIsSpace c = false := by
  simp only [pyIsSpace, decide_eq_false_iff_not]
  rintro (rfl | rfl | rfl | rfl | rfl | rfl) <;> exact absurd h (by decide)

lemma isUpperHex_ne_colon (c : Char) (h : isUpperHex c = true) : c ≠ ':' := by
  rintro rfl
  exact absurd h (by decide)

lemma isUpperHex_ne_S (c : Char) (h : isUpperHex c = true) : c ≠ 'S' := by
  rintro rfl
  exact absurd h (by decide)

/-- Every character of the colon-separated body is a colon or a pair
character. -/
lemma mem_colonJoin (pairs : List (Char × Char)) (c : Char)
    (h : c ∈ colonJoin pairs) :
    c = ':' ∨ ∃ p ∈ pairs, c = p.1 ∨ c = p.2 := by
  induction pairs with
  | nil => simp [colonJoin] at h
  | cons p rest ih =>
    cases rest with
    | nil =>
      rcases List.mem_cons.mp h with rfl | h2
      · exact Or.inr ⟨p, by simp⟩
      · rcases List.mem_singleton.mp h2 with rfl
        exact Or.inr ⟨p, by simp⟩
    | cons q rest2 =>
      rw [colonJoin] at h
      rcases List.mem_cons.mp h with rfl | h2
      · exact Or.inr ⟨p, by simp⟩
      rcases List.mem_cons.mp h2 with rfl | h3
      · exact Or.inr ⟨p, by simp⟩
      rcases List.mem_cons.mp h3 with rfl | h4
      · exact Or.inl rfl
      · rcases ih h4 with hcol | ⟨r, hr, hc⟩
        · exact Or.inl hcol
        · exact Or.inr ⟨r, List.mem_cons_of_mem p hr, hc⟩

/-- Every character of the flattened fingerprint is a pair character. -/
lemma mem_flatPairs (pairs : List (Char × Char)) (c : Char)
    (h : c ∈ flatPairs pairs) : ∃ p ∈ pairs, c = p.1 ∨ c = p.2 := by
  induction pairs with
  | nil => simp [flatPairs] at h
  | cons p rest ih =>
    rw [flatPairs] at h
    rcases List.mem_cons.mp h with rfl | h2
    · exact ⟨p, by simp⟩
    rcases List.mem_cons.mp h2 with rfl | h3
    · exact ⟨p, by simp⟩
    · obtain ⟨r, hr, hc⟩ := ih h3
      exact ⟨r, List.mem_cons_of_mem p hr, hc⟩

/-- The last character of a non-empty colon-separated body is the second
character of some pair. -/
lemma colonJoin_getLast? (p : Char × Char) (rest : List (Char × Char)) :
    ∃ q, q ∈ (p :: rest) ∧ (colonJoin (p :: rest)).getLast? = some q.2 := by
  induction rest generalizing p with
  | nil => exact ⟨p, by simp, by simp [colonJoin]⟩
  | cons q rest2 ih =>
    obtain ⟨r, hr, hlast⟩ := ih q
    refine ⟨r, List.mem_cons_of_mem p hr, ?_⟩
    rw [colonJoin]
    rw [List.getLast?_cons_cons, List.getLast?_cons_cons]
    cases rest2 with
    | nil => simpa [colonJoin] using hlast
    | cons _ _ => simpa [colonJoin] using hlast

/-- Removing the colons from the separated body gives the flat body. -/
lemma filter_colonJoin (pairs : List (Char × Char))
    (h : ∀ p ∈ pairs, p.1 ≠ ':' ∧ p.2 ≠ ':') :
    (colonJoin pairs).filter (fun x => decide (x ≠ ':')) = flatPairs pairs := by
  induction pairs with
  | nil => rfl
  | cons p rest ih =>
    have hp := h p (List.mem_cons_self p rest)
    cases rest with
    | nil =>
      simp [colonJoin, flatPairs, List.filter, hp.1, hp.2]
    | cons q rest2 =>
      rw [colonJoin, flatPairs]
      have ihr := ih (fun r hr => h r (List.mem_cons_of_mem p hr))
      simp [List.filter_cons, hp.1, hp.2]
      simpa using ihr

/-- Normalisation leaves an already-normalised (bare hex) string alone. -/
lemma normalizeFingerprint_flat (pairs : List (Char × Char))
    (h : ∀ p ∈ pairs, isUpperHex p.1 = true ∧ isUpperHex p.2 = true) :
    normalizeFingerprint (flatPairs pairs) = flatPairs pairs := by
  have hchars : ∀ c ∈ flatPairs pairs, isUpperHex c = true := by
    intro c hc
    obtain ⟨p, hp, hcp⟩ := mem_flatPairs pairs c hc
    rcases hcp with rfl | rfl
    · exact (h p hp).1
    · exact (h p hp).2
  rw [normalizeFingerprint,
    pyStrip_eq_self_of_forall _ (fun c hc => isUpperHex_not_space c (hchars c hc)),
    pyReplace_of_not_mem sha1Label [] _ 'S' (by decide)
      (fun hmem => isUpperHex_ne_S _ (hchars _ hmem) rfl),
    pyReplace_single_eq_filter]
  exact List.filter_eq_self.mpr
    (fun c hc => by simpa using isUpperHex_ne_colon c (hchars c hc))

/-- Normalisation of a full `SHA1 Fingerprint=AA:BB:...:FF` line yields
the bare hex string. -/
lemma normalizeFingerprint_raw (pairs : List (Char × Char))
    (h : ∀ p ∈ pairs, isUpperHex p.1 = true ∧ isUpperHex p.2 = true) :
    normalizeFingerprint (sha1Label ++ colonJoin pairs) = flatPairs pairs := by
  have hhead : (sha1Label ++ colonJoin pairs).head? = some 'S' := by
    rw [show sha1Label = 'S' :: "HA1 Fingerprint=".data from by decide]
    rfl
  have hstrip : pyStrip (sha1Label ++ colonJoin pairs) =
      sha1Label ++ colonJoin pairs := by
    apply pyStrip_eq_self
    · intro c hc
      rw [hhead] at hc
      injection hc with h2
      subst h2
      decide
    · intro c hc
      cases pairs with
      | nil =>
        rw [show colonJoin [] = [] from rfl, List.append_nil,
          show sha1Label.getLast? = some '=' from by decide] at hc
        injection hc with h2
        subst h2
        decide
      | cons p rest =>
        obtain ⟨q, hq, hlast⟩ := colonJoin_getLast? p rest
        rw [List.getLast?_append, hlast] at hc
        simp only [Option.or_some] at hc
        injection hc with h2
        subst h2
        exact isUpperHex_not_space _ (h q hq).2
  have hnoS : 'S' ∉ colonJoin pairs := by
    intro hmem
    rcases mem_colonJoin pairs 'S' hmem with hcol | ⟨p, hp, hc⟩
    · exact absurd hcol (by decide)
    · rcases hc with hc1 | hc2
      · exact isUpperHex_ne_S _ (h p hp).1 hc1.symm
      · exact isUpperHex_ne_S _ (h p hp).2 hc2.symm
  rw [normalizeFingerprint, hstrip,
    pyReplace_matched sha1Label [] _ (by decide) ⟨colonJoin pairs, rfl⟩,
    List.nil_append, List.drop_left,
    pyReplace_of_not_mem sha1Label [] _ 'S' (by decide) hnoS,
    pyReplace_single_eq_filter]
  exact filter_colonJoin pairs
    (fun p hp => ⟨isUpperHex_ne_colon _ (h p hp).1,
      isUpperHex_ne_colon _ (h p hp).2⟩)

/-! ### Concrete invocations (used by the witnesses and counterexamples) -/

/-- Fingerprint `AAA...A` (40 characters). -/
def fpX : Str := List.replicate 40 'A'

/-- Fingerprint `BBB...B` (40 characters). -/
def fpY : Str := List.replicate 40 'B'

/-- Fingerprint `CCC...C` (40 characters), never embedded in the profile. -/
def fpZ : Str := List.replicate 40 'C'

/-- The openssl stdout line carrying fingerprint `fpX`. -/
def lineX : Str := sha1Label ++ colonJoin (List.replicate 20 ('A', 'A')) ++ "\n".data

/-- The openssl stdout line carrying fingerprint `fpY`. -/
def lineY : Str := sha1Label ++ colonJoin (List.replicate 20 ('B', 'B')) ++ "\n".data

/-- One human-readable line of `security find-identity` output. -/
def idLine (fp : Str) : Str :=
  "  1) ".data ++ fp ++ " \"Apple Development: Someone (TEAM)\"\n".data

def blob1 : Blob := "certOne".data

def blob2 : Blob := "certTwo".data

def xmlW : Str := "decodedPlist".data

def mpfW : MobileProvision := ⟨[blob1, blob2]⟩

def pathW : Option Str := some "profile.mobileprovision".data

/-- Host listing `fpZ` then `fpY`; profile certs fingerprint to `fpX`, `fpY`. -/
def envA : HostEnv :=
  { cms := fun _ => .ran xmlW 0
    plistOf := fun s => if s = xmlW then .ok mpfW else .error .valueError
    openssl := fun b => .ran (if b = blob1 then lineX else lineY) 0
    findIdentity := .ran (idLine fpZ ++ idLine fpY) 0 }

/-- Like `envA` but the host lists the same identities in the other order. -/
def envB : HostEnv :=
  { cms := fun _ => .ran xmlW 0
    plistOf := fun s => if s = xmlW then .ok mpfW else .error .valueError
    openssl := fun b => .ran (if b = blob1 then lineX else lineY) 0
    findIdentity := .ran (idLine fpY ++ idLine fpZ) 0 }

/-- Like `envA` but the host holds only `fpZ`: empty intersection. -/
def envC : HostEnv :=
  { cms := fun _ => .ran xmlW 0
    plistOf := fun s => if s = xmlW then .ok mpfW else .error .valueError
    openssl := fun b => .ran (if b = blob1 then lineX else lineY) 0
    findIdentity := .ran (idLine fpZ) 0 }

/-- openssl runs but fails (exit 1, empty stdout) on the first certificate
(the invalid-DER scenario) and succeeds on the second, whose fingerprint
the host holds. -/
def envD : HostEnv :=
  { cms := fun _ => .ran xmlW 0
    plistOf := fun s => if s = xmlW then .ok mpfW else .error .valueError
    openssl := fun b => if b = blob1 then .ran [] 1 else .ran lineY 0
    findIdentity := .ran (idLine fpY) 0 }

/-- Spawning openssl fails outright (the utility is absent). -/
def envE : HostEnv :=
  { cms := fun _ => .ran xmlW 0
    plistOf := fun s => if s = xmlW then .ok mpfW else .error .valueError
    openssl := fun _ => .spawnFailure
    findIdentity := .ran (idLine fpY) 0 }

def codesignPath : Str := "/usr/bin/codesign".data

/-- An invocation that supplies `--identity fpX`. -/
def argsOverride : Args := ⟨pathW, codesignPath, some fpX⟩

/-- An invocation with no `--identity`. -/
def argsResolve : Args := ⟨pathW, codesignPath, none⟩

/-- An invocation that supplies `--identity ""`. -/
def argsEmptyOverride : Args := ⟨pathW, codesignPath, some []⟩

/-! ### The claims -/

/-- C3: when `--identity` is supplied, resolution is skipped entirely: no
external process is spawned (in particular the provisioning profile is
never decoded and no certificate is fingerprinted), and the override
value is passed verbatim after `--sign` to the signing binary. -/
theorem identity_override_skips_resolution (args : Args)
    (codesign_args : List Str) (env : HostEnv) (v : Str)
    (h : args.identity = some v) :
    Codesigningtool.main args codesign_args env =
      ([], .ok (.execed (args.codesign :: vFlag :: signFlag :: v ::
        codesign_args))) := by
  simp [Codesigningtool.main, h]

/-- Witness for C3 at a concrete invocation. -/
theorem identity_override_skips_resolution_witness :
    argsOverride.identity = some fpX ∧
    Codesigningtool.main argsOverride ["--timestamp".data] envA =
      ([], .ok (.execed (argsOverride.codesign :: vFlag :: signFlag :: fpX ::
        ["--timestamp".data]))) :=
  ⟨rfl, identity_override_skips_resolution argsOverride ["--timestamp".data]
    envA fpX rfl⟩

/-- C8: whenever `main` reaches the exec step, the argument vector handed
to the signing binary is exactly its own path, `-v`, `--sign`, the
identity, then the unrecognised arguments unchanged and in order. -/
theorem exec_argv_fixed_head_then_passthrough (args : Args)
    (codesign_args : List Str) (env : HostEnv) (argv : List Str)
    (h : (Codesigningtool.main args codesign_args env).2 =
      .ok (.execed argv)) :
    ∃ identity, argv = args.codesign :: vFlag :: signFlag :: identity ::
      codesign_args := by
  cases hid : args.identity with
  | some i =>
    simp [Codesigningtool.main, hid] at h
    exact ⟨i, h.symm⟩
  | none =>
    cases hfc : _find_codesign_identity env args.mobileprovision with
    | mk tr r =>
      cases r with
      | error e => simp [Codesigningtool.main, hid, hfc] at h
      | ok o =>
        cases o with
        | none => simp [Codesigningtool.main, hid, hfc] at h
        | some i =>
          simp [Codesigningtool.main, hid, hfc] at h
          exact ⟨i, h.symm⟩

/-- Witness for C8 at a concrete invocation. -/
theorem exec_argv_fixed_head_then_passthrough_witness :
    (Codesigningtool.main argsOverride ["--force".data] envA).2 =
      .ok (.execed (argsOverride.codesign :: vFlag :: signFlag :: fpX ::
        ["--force".data])) ∧
    ∃ identity, argsOverride.codesign :: vFlag :: signFlag :: fpX ::
        ["--force".data] =
      argsOverride.codesign :: vFlag :: signFlag :: identity ::
        ["--force".data] :=
  ⟨by decide, exec_argv_fixed_head_then_passthrough argsOverride
    ["--force".data] envA _ (by decide)⟩

/-- C9: `--identity ""` is treated as present: the `identity == None`
check does not fire, resolution is skipped (no external call), and the
signing binary is invoked with `--sign` followed by an empty argument;
the exit-1 failure path is not taken. -/
theorem empty_identity_override_treated_as_present (args : Args)
    (codesign_args : List Str) (env : HostEnv)
    (h : args.identity = some []) :
    Codesigningtool.main args codesign_args env =
      ([], .ok (.execed (args.codesign :: vFlag :: signFlag :: [] ::
        codesign_args))) ∧
    ∀ m c, (Codesigningtool.main args codesign_args env).2 ≠
      .ok (.failed m c) := by
  have h1 : Codesigningtool.main args codesign_args env =
      ([], .ok (.execed (args.codesign :: vFlag :: signFlag :: [] ::
        codesign_args))) := by
    simp [Codesigningtool.main, h]
  refine ⟨h1, fun m c hcontra => ?_⟩
  rw [h1] at hcontra
  simp at hcontra

/-- Witness for C9 at a concrete invocation. -/
theorem empty_identity_override_treated_as_present_witness :
    argsEmptyOverride.identity = some [] ∧
    (Codesigningtool.main argsEmptyOverride [] envA =
      ([], .ok (.execed (argsEmptyOverride.codesign :: vFlag :: signFlag ::
        [] :: []))) ∧
    ∀ m c, (Codesigningtool.main argsEmptyOverride [] envA).2 ≠
      .ok (.failed m c)) :=
  ⟨rfl, empty_identity_override_treated_as_present argsEmptyOverride [] envA rfl⟩

/-- C2: with no `--identity` override and an empty intersection between
the profile's certificate fingerprints and the host identity set, the
resolver returns absence (`None`), `main` prints the diagnostic that
names the profile path and returns exit status 1, and the signing binary
is never invoked. -/
theorem empty_intersection_fails_with_diagnostic_exit_one (args : Args)
    (codesign_args : List Str) (env : HostEnv) (mpf : MobileProvision)
    (hid : args.identity = none)
    (hg : GoodEnv env args.mobileprovision mpf)
    (hempty : ∀ f ∈ profileFingerprints env mpf,
      f ∉ hostIdentityList env) :
    (_find_codesign_identity env args.mobileprovision).2 = .ok none ∧
    (Codesigningtool.main args codesign_args env).2 =
      .ok (.failed (unableMsg args.mobileprovision) 1) ∧
    (∀ p, args.mobileprovision = some p →
      p <:+ unableMsg args.mobileprovision) ∧
    ∀ argv, (Codesigningtool.main args codesign_args env).2 ≠
      .ok (.execed argv) := by
  have hres : (_find_codesign_identity env args.mobileprovision).2 =
      .ok none := by
    rw [resolver_eq_find env args.mobileprovision mpf hg]
    have : (profileFingerprints env mpf).find?
        (fun f => decide (f ∈ hostIdentityList env)) = none := by
      rw [List.find?_eq_none]
      intro x hx
      simpa using hempty x hx
    rw [this]
  have hmain : (Codesigningtool.main args codesign_args env).2 =
      .ok (.failed (unableMsg args.mobileprovision) 1) := by
    cases hfc : _find_codesign_identity env args.mobileprovision with
    | mk tr r =>
      rw [hfc] at hres
      simp only at hres
      subst hres
      simp [Codesigningtool.main, hid, hfc]
  refine ⟨hres, hmain, fun p hp => ?_, fun argv hcontra => ?_⟩
  · rw [hp]
    simp only [unableMsg, pyFormatOptStr]
    exact List.suffix_append _ _
  · rw [hmain] at hcontra
    simp at hcontra

/-- Witness for C2 at a concrete invocation (profile fingerprints
`[fpX, fpY]`, host set `[fpZ]`). -/
theorem empty_intersection_fails_with_diagnostic_exit_one_witness :
    argsResolve.identity = none ∧
    (∀ f ∈ profileFingerprints envC mpfW, f ∉ hostIdentityList envC) ∧
    ((_find_codesign_identity envC argsResolve.mobileprovision).2 =
      .ok none ∧
    (Codesigningtool.main argsResolve [] envC).2 =
      .ok (.failed (unableMsg argsResolve.mobileprovision) 1) ∧
    (∀ p, argsResolve.mobileprovision = some p →
      p <:+ unableMsg argsResolve.mobileprovision) ∧
    ∀ argv, (Codesigningtool.main argsResolve [] envC).2 ≠
      .ok (.execed argv)) :=
  ⟨rfl, by decide,
    empty_intersection_fails_with_diagnostic_exit_one argsResolve [] envC mpfW
      rfl
      ⟨⟨xmlW, rfl, by decide⟩, ⟨_, _, rfl⟩, fun b hb => ⟨_, _, rfl⟩⟩
      (by decide)⟩

/-- C7: selection is deterministic and picks the first profile-order
fingerprint present in the host identity set (the resolver's value is
literally the first-match search `find?`, so at most one identity is
selected, with no "best"/"most recent" ranking); two invocations with the
same profile fingerprint sequence and the same identity-store snapshot
return the same result. -/
theorem selection_deterministic_first_match (env : HostEnv)
    (path : Option Str) (mpf : MobileProvision)
    (hg : GoodEnv env path mpf) :
    (_find_codesign_identity env path).2 =
      .ok ((profileFingerprints env mpf).find?
        (fun f => decide (f ∈ hostIdentityList env))) ∧
    ∀ env₂ path₂, GoodEnv env₂ path₂ mpf →
      profileFingerprints env₂ mpf = profileFingerprints env mpf →
      hostIdentityList env₂ = hostIdentityList env →
      (_find_codesign_identity env₂ path₂).2 =
        (_find_codesign_identity env path).2 := by
  refine ⟨resolver_eq_find env path mpf hg, ?_⟩
  intro env₂ path₂ hg₂ hfp hids
  rw [resolver_eq_find env₂ path₂ mpf hg₂, resolver_eq_find env path mpf hg,
    hfp]
  congr 1
  apply find?_ext
  intro a _
  rw [hids]

/-- Witness for C7 at a concrete invocation (two environments with equal
snapshots). -/
theorem selection_deterministic_first_match_witness :
    (_find_codesign_identity envA pathW).2 =
      .ok ((profileFingerprints envA mpfW).find?
        (fun f => decide (f ∈ hostIdentityList envA))) ∧
    ∀ env₂ path₂, GoodEnv env₂ path₂ mpfW →
      profileFingerprints env₂ mpfW = profileFingerprints envA mpfW →
      hostIdentityList env₂ = hostIdentityList envA →
      (_find_codesign_identity env₂ path₂).2 =
        (_find_codesign_identity envA pathW).2 :=
  selection_deterministic_first_match envA pathW mpfW
    ⟨⟨xmlW, rfl, by decide⟩, ⟨_, _, rfl⟩, fun b hb => ⟨_, _, rfl⟩⟩

/-- C1: when the intersection of the profile's fingerprints and the host
identity set is non-empty, the resolver returns the fingerprint of the
first certificate in profile order whose fingerprint is in the host set
(all earlier certificates are not), and the result is unchanged under any
reordering of the host's identity listing. -/
theorem first_profile_order_match_host_order_irrelevant
    (env env₂ : HostEnv) (path path₂ : Option Str) (mpf : MobileProvision)
    (hg : GoodEnv env path mpf) (hg₂ : GoodEnv env₂ path₂ mpf)
    (hfp : profileFingerprints env₂ mpf = profileFingerprints env mpf)
    (hperm : List.Perm (hostIdentityList env₂) (hostIdentityList env))
    (hne : ∃ f ∈ profileFingerprints env mpf,
      f ∈ hostIdentityList env) :
    ∃ i, ∃ hi : i < (profileFingerprints env mpf).length,
      (_find_codesign_identity env path).2 =
        .ok (some ((profileFingerprints env mpf).get ⟨i, hi⟩)) ∧
      (profileFingerprints env mpf).get ⟨i, hi⟩ ∈ hostIdentityList env ∧
      (∀ j, ∀ hj : j < i,
        (profileFingerprints env mpf).get ⟨j, by omega⟩ ∉
          hostIdentityList env) ∧
      (_find_codesign_identity env₂ path₂).2 =
        (_find_codesign_identity env path).2 := by
  have h1 := resolver_eq_find env path mpf hg
  have h2 := resolver_eq_find env₂ path₂ mpf hg₂
  obtain ⟨a, ha⟩ := find?_isSome_of_exists
    (fun f => decide (f ∈ hostIdentityList env))
    (profileFingerprints env mpf)
    (by
      obtain ⟨f, hf, hmem⟩ := hne
      exact ⟨f, hf, decide_eq_true hmem⟩)
  obtain ⟨i, hi, hget, hp, hmin⟩ := find?_first_index _ _ a ha
  refine ⟨i, hi, ?_, ?_, ?_, ?_⟩
  · rw [h1, ha, hget]
  · rw [hget]
    exact of_decide_eq_true hp
  · intro j hj
    have := hmin j hj
    simpa using this
  · rw [h2, h1, hfp]
    congr 1
    apply find?_ext
    intro x _
    exact decide_eq_decide.mpr hperm.mem_iff

/-- Witness for C1: profile fingerprints `[fpX, fpY]`, host set
`{fpZ, fpY}` listed in both orders; the match is `fpY` at index 1. -/
theorem first_profile_order_match_host_order_irrelevant_witness :
    List.Perm (hostIdentityList envB) (hostIdentityList envA) ∧
    (∃ f ∈ profileFingerprints envA mpfW, f ∈ hostIdentityList envA) ∧
    ∃ i, ∃ hi : i < (profileFingerprints envA mpfW).length,
      (_find_codesign_identity envA pathW).2 =
        .ok (some ((profileFingerprints envA mpfW).get ⟨i, hi⟩)) ∧
      (profileFingerprints envA mpfW).get ⟨i, hi⟩ ∈ hostIdentityList envA ∧
      (∀ j, ∀ hj : j < i,
        (profileFingerprints envA mpfW).get ⟨j, by omega⟩ ∉
          hostIdentityList envA) ∧
      (_find_codesign_identity envB pathW).2 =
        (_find_codesign_identity envA pathW).2 :=
  ⟨by decide, by decide,
    first_profile_order_match_host_order_irrelevant envA envB pathW pathW mpfW
      ⟨⟨xmlW, rfl, by decide⟩, ⟨_, _, rfl⟩, fun b hb => ⟨_, _, rfl⟩⟩
      ⟨⟨xmlW, rfl, by decide⟩, ⟨_, _, rfl⟩, fun b hb => ⟨_, _, rfl⟩⟩
      (by decide) (by decide) (by decide)⟩

/-- C4 counterexample: the first embedded certificate is malformed — the
fingerprinting utility ran on it and failed (exit status 1, empty
stdout) — yet resolution does not abort: `_check_output` never inspects
the exit status, so the loop continues and returns the second
certificate's fingerprint. -/
theorem malformed_certificate_does_not_abort_resolution :
    envD.openssl blob1 = .ran [] 1 ∧
    (_find_codesign_identity envD pathW).2 = .ok (some fpY) := by
  constructor
  · decide
  · decide

/-- C4 amended: only a failed spawn of the fingerprinting utility (the
tool being absent) propagates as an unrecoverable error aborting the
entire resolution; when the utility runs — whatever its exit status,
e.g. on invalid DER — `_check_output` returns the captured stdout and
the resolution completes normally. -/
theorem fingerprint_utility_failure_modes (env : HostEnv)
    (path : Option Str) (mpf : MobileProvision) (b : Blob)
    (rest : List Blob)
    (hcms : _parse_mobileprovision_file env path = .ok mpf)
    (hcerts : mpf.developerCertificates = b :: rest)
    (hfind : ∃ out code, env.findIdentity = .ran out code) :
    (env.openssl b = .spawnFailure →
      (_find_codesign_identity env path).2 = .error .oSError) ∧
    ((∀ b2 ∈ mpf.developerCertificates,
        ∃ out code, env.openssl b2 = .ran out code) →
      ∃ r, (_find_codesign_identity env path).2 = .ok r) := by
  obtain ⟨out, code, hf⟩ := hfind
  have hids : _find_codesign_identities env = .ok (hostIdentityList env) := by
    rw [_find_codesign_identities, hf]
    simp [_check_output, hostIdentityList, ranStdout, hf]
  constructor
  · intro hspawn
    have hcf : _certificate_fingerprint env b = .error .oSError := by
      rw [_certificate_fingerprint, hspawn]
      rfl
    simp [_find_codesign_identity, hcms, hids, hcerts, resolveLoop, hcf]
  · intro hall
    refine ⟨(profileFingerprints env mpf).find?
      (fun f => decide (f ∈ hostIdentityList env)), ?_⟩
    simp only [_find_codesign_identity, hcms, hids]
    exact resolveLoop_result env (hostIdentityList env)
      mpf.developerCertificates hall

/-- Witness for C4 amended: with openssl absent, the resolver propagates
the spawn failure. -/
theorem fingerprint_utility_failure_modes_witness :
    (_find_codesign_identity envE pathW).2 = .error .oSError :=
  (fingerprint_utility_failure_modes envE pathW mpfW blob1 [blob2]
    (by decide) (by decide) ⟨idLine fpY, 0, rfl⟩).1 rfl

/-- C5 counterexample: a line whose only hex content is a single run of
41 hex characters is matched by the scan — it yields the run's leftmost
40 characters — refuting that hex runs longer than 40 characters are not
matched (and that such a line yields nothing). -/
theorem long_hex_run_is_matched :
    searchHex40 (List.replicate 41 'A') =
      some (List.replicate 40 'A') := by
  decide

/-- C5 amended: the scan yields the leftmost 40-character all-hex window
of the line: a line with no such window (in particular one whose hex runs
are all shorter than 40) yields nothing, and a line with such windows
yields the leftmost one; a line whose only window starts a run of exactly
40 hex characters therefore yields that run, while a longer run yields
its leftmost 40 characters. -/
theorem line_scan_leftmost_forty_hex_window (line : List Char) :
    ((∀ i, ¬ HexWindowAt line i) → searchHex40 line = none) ∧
    (∀ i, HexWindowAt line i → (∀ j < i, ¬ HexWindowAt line j) →
      searchHex40 line = some ((line.drop i).take 40)) :=
  ⟨searchHex40_eq_none line,
    fun i hw hleast => searchHex40_eq_some_of_least line i hw hleast⟩

/-- Witness for C5 amended at a concrete line whose only window is at
position 2 (a run of exactly 40 hex characters). -/
theorem line_scan_leftmost_forty_hex_window_witness :
    HexWindowAt ("  ".data ++ fpY ++ " ok".data) 2 ∧
    (∀ j < 2, ¬ HexWindowAt ("  ".data ++ fpY ++ " ok".data) j) ∧
    searchHex40 ("  ".data ++ fpY ++ " ok".data) =
      some ((("  ".data ++ fpY ++ " ok".data).drop 2).take 40) :=
  ⟨by decide, by decide,
    (line_scan_leftmost_forty_hex_window ("  ".data ++ fpY ++ " ok".data)).2
      2 (by decide) (by decide)⟩

/-- C6: fingerprint normalisation is format-stable and idempotent: on a
raw line `SHA1 Fingerprint=AA:BB:...:FF` (hex byte pairs) it yields
exactly the bare hex string with the label and all colons removed and
every character preserved, and applying it a second time changes
nothing. -/
theorem fingerprint_normalization_idempotent_format_stable
    (pairs : List (Char × Char))
    (h : ∀ p ∈ pairs, isUpperHex p.1 = true ∧ isUpperHex p.2 = true) :
    normalizeFingerprint (sha1Label ++ colonJoin pairs) = flatPairs pairs ∧
    normalizeFingerprint
        (normalizeFingerprint (sha1Label ++ colonJoin pairs)) =
      normalizeFingerprint (sha1Label ++ colonJoin pairs) := by
  have h1 := normalizeFingerprint_raw pairs h
  refine ⟨h1, ?_⟩
  rw [h1, normalizeFingerprint_flat pairs h]

/-- Witness for C6 at the concrete 20-pair fingerprint `AB:AB:...:AB`. -/
theorem fingerprint_normalization_idempotent_format_stable_witness :
    (∀ p ∈ List.replicate 20 ('A', 'B'),
      isUpperHex p.1 = true ∧ isUpperHex p.2 = true) ∧
    (normalizeFingerprint
        (sha1Label ++ colonJoin (List.replicate 20 ('A', 'B'))) =
      flatPairs (List.replicate 20 ('A', 'B')) ∧
    normalizeFingerprint
        (normalizeFingerprint
          (sha1Label ++ colonJoin (List.replicate 20 ('A', 'B')))) =
      normalizeFingerprint
        (sha1Label ++ colonJoin (List.replicate 20 ('A', 'B')))) :=
  ⟨by decide,
    fingerprint_normalization_idempotent_format_stable
      (List.replicate 20 ('A', 'B')) (by decide)⟩

/-- C10: every string returned by the identity-store query is exactly 40
characters, all in the regex class `[A-F0-9]`; lowercase hex never
appears in a returned fingerprint. -/
theorem identity_store_query_returns_uppercase_forty_hex (env : HostEnv)
    (ids : List Str) (h : _find_codesign_identities env = .ok ids) :
    ∀ s ∈ ids, s.length = 40 ∧ ∀ c ∈ s, isUpperHex c = true := by
  intro s hs
  cases hf : env.findIdentity with
  | spawnFailure =>
    rw [_find_codesign_identities, hf] at h
    simp [_check_output] at h
  | ran out code =>
    rw [_find_codesign_identities, hf] at h
    simp only [_check_output] at h
    injection h with h2
    subst h2
    obtain ⟨line, _, hline⟩ := mem_collectIds _ s hs
    exact searchHex40_some_prop line s hline

/-- Witness for C10: a host whose listing carries `fpZ` and `fpY` (and a
lowercase line contributes nothing). -/
theorem identity_store_query_returns_uppercase_forty_hex_witness :
    _find_codesign_identities envA = .ok [fpZ, fpY] ∧
    ∀ s ∈ [fpZ, fpY], s.length = 40 ∧ ∀ c ∈ s, isUpperHex c = true :=
  ⟨by decide,
    identity_store_query_returns_uppercase_forty_hex envA [fpZ, fpY]
      (by decide)⟩
